import Mathlib

/-!
Verification of the enrichment/treatment-effect engine of the
online-retail-simulator repository.

The Python source is shallowly embedded:
* machine floats that hold monetary amounts, fractions and effect sizes are
  modelled as `ℚ`;
* Python `int(x)` truncation is `pyInt`, `round(x, 2)` is `round2`
  (round-half-to-even at two decimals, as CPython's float rounding);
* dates ("YYYY-MM-DD" strings parsed with `datetime.strptime`) are modelled by
  their rata-die day number as an `ℤ`: string parsing is injective and
  monotone onto day numbers, `(a - b).days` is the difference of day numbers;
* the process-global generator of CPython's `random` module is an explicit
  `RandState` threaded through every call; `random.seed` resets it,
  `random.sample` is the sampling-without-replacement routine;
* fallible Python code (`ValueError`, `KeyError`, `TypeError`,
  `ZeroDivisionError`) is embedded as `Option`-returning functions, `none`
  meaning the call raises.
-/

namespace RetailSim

/-! ## Numeric primitives -/

/-- Python `int(x)` applied to a float: truncation toward zero. -/
def pyInt (x : ℚ) : ℤ :=
  if 0 ≤ x then ⌊x⌋ else ⌈x⌉

/-- Round to the nearest integer, ties to the even integer
(CPython float rounding behaviour). -/
def rintHalfEven (x : ℚ) : ℤ :=
  let f := ⌊x⌋
  let r := x - f
  if r < 1/2 then f
  else if 1/2 < r then f + 1
  else if f % 2 = 0 then f else f + 1

/-- Python `round(x, 2)`. -/
def round2 (x : ℚ) : ℚ :=
  (rintHalfEven (x * 100) : ℚ) / 100

theorem pyInt_intCast (z : ℤ) : pyInt (z : ℚ) = z := by
  unfold pyInt
  split <;> simp

theorem pyInt_nonneg_eq_floor {x : ℚ} (h : 0 ≤ x) : pyInt x = ⌊x⌋ := by
  unfold pyInt
  simp [h]

theorem pyInt_mono_of_nonneg {x y : ℚ} (hx : 0 ≤ x) (hxy : x ≤ y) :
    pyInt x ≤ pyInt y := by
  rw [pyInt_nonneg_eq_floor hx, pyInt_nonneg_eq_floor (hx.trans hxy)]
  exact Int.floor_le_floor hxy

theorem round2_zero : round2 0 = 0 := by
  unfold round2 rintHalfEven
  norm_num

/-! ## The pseudo-random generator

CPython's `random` module keeps one process-global Mersenne-Twister state.
We model the state explicitly and the generator step by a linear-congruential
step standing in for the Mersenne-Twister output function: every claim proved
below depends only on the generator being a deterministic function of its
state and on the structure of `random.sample`, never on the concrete output
sequence. -/

/-- State of the process-global pseudo-random generator. -/
structure RandState where
  val : Nat
deriving Repr, DecidableEq

/-- `random.seed(z)`: reinitialise the global state from the integer seed. -/
def seedState (z : ℤ) : RandState :=
  ⟨z.natAbs⟩

/-- One generator step (stand-in for a Mersenne-Twister draw). -/
def nextNat (st : RandState) : Nat × RandState :=
  let v := (st.val * 6364136223846793005 + 1442695040888963407) % 2 ^ 64
  (v, ⟨v⟩)

/-- `random._randbelow(n)`: a pseudo-random natural below `n` (for `n > 0`). -/
def randbelow (st : RandState) (n : Nat) : Nat × RandState :=
  let (v, st') := nextNat st
  (v % n, st')

/-- Selection core of `random.sample`: draw `k` elements without replacement.
Each round picks the element at a pseudo-random position of the remaining
pool and removes it from the pool. -/
def sampleAux [DecidableEq α] [Inhabited α] :
    RandState → List α → Nat → List α × RandState
  | st, _, 0 => ([], st)
  | st, pool, k + 1 =>
    let (j, st1) := randbelow st pool.length
    let x := pool.getD j default
    let (rest, st2) := sampleAux st1 (pool.erase x) k
    (x :: rest, st2)

/-- `random.sample(population, k)`: raises `ValueError` unless
`0 ≤ k ≤ len(population)`, otherwise returns `k` distinct elements of the
population. -/
def sample [DecidableEq α] [Inhabited α] (st : RandState) (pool : List α)
    (k : ℤ) : Option (List α × RandState) :=
  if 0 ≤ k ∧ k.toNat ≤ pool.length then some (sampleAux st pool k.toNat)
  else none

theorem getD_mem {α : Type u} {l : List α} {j : Nat} (h : j < l.length)
    (d : α) : l.getD j d ∈ l := by
  rw [List.getD_eq_getElem?_getD, List.getElem?_eq_getElem h]
  exact List.get_mem l j h

theorem sampleAux_length [DecidableEq α] [Inhabited α] (st : RandState)
    (pool : List α) (k : Nat) : (sampleAux st pool k).1.length = k := by
  induction k generalizing st pool with
  | zero => rfl
  | succ k ih => simp [sampleAux, ih]

theorem sampleAux_subset_nodup [DecidableEq α] [Inhabited α] :
    ∀ (st : RandState) (pool : List α) (k : Nat), pool.Nodup →
      k ≤ pool.length →
      (sampleAux st pool k).1 ⊆ pool ∧ (sampleAux st pool k).1.Nodup := by
  intro st pool k
  induction k generalizing st pool with
  | zero => intro _ _; simp [sampleAux]
  | succ k ih =>
    intro hnd hk
    have hlen : 0 < pool.length := Nat.lt_of_lt_of_le (Nat.succ_pos k) hk
    set j := (randbelow st pool.length).1 with hj
    set x := pool.getD j default with hx
    have hxmem : x ∈ pool := by
      apply getD_mem
      have : j = (nextNat st).1 % pool.length := rfl
      rw [this]
      exact Nat.mod_lt _ hlen
    have herase_len : (pool.erase x).length = pool.length - 1 :=
      List.length_erase_of_mem hxmem
    have hk' : k ≤ (pool.erase x).length := by
      rw [herase_len]
      omega
    have hnd' : (pool.erase x).Nodup := hnd.erase x
    obtain ⟨hsub, hnodup⟩ :=
      ih (randbelow st pool.length).2 (pool.erase x) hnd' hk'
    constructor
    · intro y hy
      simp only [sampleAux] at hy
      rcases List.mem_cons.mp hy with h | h
      · rw [h]; exact hxmem
      · exact List.erase_subset x pool (hsub h)
    · simp only [sampleAux]
      refine List.nodup_cons.mpr ⟨fun hxr => ?_, hnodup⟩
      exact (hnd.not_mem_erase) (hsub hxr)

/-! ## Sales records

A sale transaction dictionary, as consumed by the effect functions of
`enrich/enrichment_library.py`.  Fields the code reads with `sale.get` are
`Option`-valued; `product_identifier` is carried untouched from the
orchestrator's rows, `enriched` is the field the effect functions add. -/

structure Sale where
  product_identifier : Option String := none
  product_id : String
  date : ℤ
  ordered_units : ℤ
  unit_price : Option ℚ := none
  price : Option ℚ := none
  revenue : ℚ
  enriched : Option Bool := none
deriving Repr, DecidableEq

/-- `sale_copy.get("unit_price", sale_copy.get("price"))`. -/
def getUnitPrice (s : Sale) : Option ℚ :=
  match s.unit_price with
  | some up => some up
  | none => s.price

/-- The `**kwargs` parameters read by `quantity_boost` / `combined_boost`
with their `kwargs.get` defaults (`ramp_days` is read only by
`combined_boost`; `20042` is the rata-die day number of `"2024-11-15"`). -/
structure BoostArgs where
  effect_size : ℚ := 1/2
  enrichment_fraction : ℚ := 3/10
  enrichment_start : ℤ := 20042
  seed : Option ℤ := some 42
  ramp_days : ℤ := 7
deriving Repr, DecidableEq

/-! ## The effect-function library (`enrich/enrichment_library.py`) -/

/-- The seeded treatment-group selection performed at the top of
`quantity_boost` (lines 34-41) and, textually identically, of
`combined_boost` (lines 110-117):

    if seed is not None:
        random.seed(seed)
    unique_products = list(set(sale["product_id"] for sale in sales))
    n_enriched = int(len(unique_products) * enrichment_fraction)
    enriched_product_ids = set(random.sample(unique_products, n_enriched))

`prior` is the state of the process-global generator before the call;
`list(set(...))` produces the distinct identifiers in some ordering, which we
fix as first-occurrence order (`dedup`) — all claims about the selection are
stated relative to this ordering, as the spec conditions on the
`unique_ids` ordering. -/
def selectEnriched (prior : RandState) (sales : List Sale) (fraction : ℚ)
    (seed : Option ℤ) : Option (List String × RandState) :=
  let st := match seed with
    | some z => seedState z
    | none => prior
  let uniqueProducts := (sales.map (·.product_id)).dedup
  let n := pyInt ((uniqueProducts.length : ℚ) * fraction)
  sample st uniqueProducts n

/-- The per-sale body of the `for sale in sales` loop of `quantity_boost`
(lines 47-62): deep-copy the sale, tag it with the `enriched` flag, and for
enriched sales dated on/after the start date boost the ordered units and
recompute the revenue.  `none` models the `TypeError` raised when neither
`unit_price` nor `price` is present on a boosted row. -/
def applyQuantityBoost (enrichedIds : List String) (startDate : ℤ)
    (effectSize : ℚ) (sale : Sale) : Option Sale :=
  let isEnriched : Bool := enrichedIds.contains sale.product_id
  let s1 : Sale := { sale with enriched := some isEnriched }
  if isEnriched ∧ startDate ≤ sale.date then
    match getUnitPrice s1 with
    | none => none
    | some up =>
      let q := pyInt ((s1.ordered_units : ℚ) * (1 + effectSize))
      some { s1 with ordered_units := q, revenue := round2 ((q : ℚ) * up) }
  else some s1

/-- The `treated_sales` accumulation loop: apply `f` to every sale in order,
appending each result; an exception in any iteration aborts the whole call. -/
def applyAll (f : Sale → Option Sale) : List Sale → Option (List Sale)
  | [] => some []
  | s :: rest =>
    match f s, applyAll f rest with
    | some t, some ts => some (t :: ts)
    | _, _ => none

/-- `quantity_boost(sales, **kwargs)` (enrichment_library.py lines 14-64). -/
def quantity_boost (prior : RandState) (sales : List Sale) (a : BoostArgs) :
    Option (List Sale × RandState) :=
  match selectEnriched prior sales a.enrichment_fraction a.seed with
  | none => none
  | some (enrichedIds, st) =>
    match applyAll
        (applyQuantityBoost enrichedIds a.enrichment_start a.effect_size)
        sales with
    | none => none
    | some out => some (out, st)

/-- `probability_boost(sales, **kwargs)`: delegates to `quantity_boost`. -/
def probability_boost (prior : RandState) (sales : List Sale) (a : BoostArgs) :
    Option (List Sale × RandState) :=
  quantity_boost prior sales a

/-- The ramp computation of `combined_boost` (lines 133-139):

    days_since_start = (sale_date - start_date).days
    if ramp_days <= 0:
        ramp_factor = 1.0
    else:
        ramp_factor = min(1.0, days_since_start / ramp_days)
-/
def ramp_factor (daysSinceStart : ℤ) (rampDays : ℤ) : ℚ :=
  if rampDays ≤ 0 then 1
  else min 1 ((daysSinceStart : ℚ) / (rampDays : ℚ))

/-- The per-sale body of the `for sale in sales` loop of `combined_boost`
(lines 123-148): as `applyQuantityBoost` but with the ramp-adjusted effect. -/
def applyCombinedBoost (enrichedIds : List String) (startDate : ℤ)
    (effectSize : ℚ) (rampDays : ℤ) (sale : Sale) : Option Sale :=
  let isEnriched : Bool := enrichedIds.contains sale.product_id
  let s1 : Sale := { sale with enriched := some isEnriched }
  if isEnriched ∧ startDate ≤ sale.date then
    let daysSinceStart := sale.date - startDate
    let adjustedEffect := effectSize * ramp_factor daysSinceStart rampDays
    match getUnitPrice s1 with
    | none => none
    | some up =>
      let q := pyInt ((s1.ordered_units : ℚ) * (1 + adjustedEffect))
      some { s1 with ordered_units := q, revenue := round2 ((q : ℚ) * up) }
  else some s1

/-- `combined_boost(sales, **kwargs)` (enrichment_library.py lines 85-150). -/
def combined_boost (prior : RandState) (sales : List Sale) (a : BoostArgs) :
    Option (List Sale × RandState) :=
  match selectEnriched prior sales a.enrichment_fraction a.seed with
  | none => none
  | some (enrichedIds, st) =>
    match applyAll
        (applyCombinedBoost enrichedIds a.enrichment_start a.effect_size
          a.ramp_days)
        sales with
    | none => none
    | some out => some (out, st)

/-! ## Treatment assignment over a product list
(`assign_enrichment`, enrich/enrichment.py lines 42-68) -/

/-- A product dictionary as consumed by `assign_enrichment`: the function
reads no field and only adds the `enriched` flag, so the remaining payload is
carried opaquely. -/
structure Product where
  payload : List (String × String)
  enriched : Option Bool := none
deriving Repr, DecidableEq

/-- `assign_enrichment(products, fraction, seed)`:

    if seed is not None:
        random.seed(seed)
    enriched_products = copy.deepcopy(products)
    n_enriched = int(len(products) * fraction)
    enriched_indices = random.sample(range(len(products)), n_enriched)
    for i, product in enumerate(enriched_products):
        product["enriched"] = i in enriched_indices
-/
def assign_enrichment (prior : RandState) (products : List Product)
    (fraction : ℚ) (seed : Option ℤ) : Option (List Product × RandState) :=
  let st := match seed with
    | some z => seedState z
    | none => prior
  let n := pyInt ((products.length : ℚ) * fraction)
  match sample st (List.range products.length) n with
  | none => none
  | some (enrichedIndices, st') =>
    some (products.enum.map
      (fun ip => { ip.2 with enriched := some (decide (ip.1 ∈ enrichedIndices)) }),
      st')

/-! ## The older-generation library (`enrichment_impact_library.py`)

Its effect functions act on a single sale dictionary and receive the start
date positionally; its `combined_boost` (lines 58-90) computes
`min(1.0, days_since_start / ramp_days)` with no guard on `ramp_days`. -/

/-- A sale dictionary of the older generation (`quantity`, mandatory
`unit_price` as read on line 88). -/
structure ImpactSale where
  date : ℤ
  quantity : ℤ
  unit_price : ℚ
  revenue : ℚ
deriving Repr, DecidableEq

/-- `enrichment_impact_library.combined_boost(sale, enrichment_start,
**kwargs)`.  When `ramp_days` is zero and the sale is on/after the start
date, `days_since_start / ramp_days` raises `ZeroDivisionError` (`none`). -/
def impactCombined_boost (sale : ImpactSale) (enrichmentStart : ℤ)
    (effectSize : ℚ) (rampDays : ℤ) : Option ImpactSale :=
  if enrichmentStart ≤ sale.date then
    let daysSinceStart := sale.date - enrichmentStart
    if rampDays = 0 then none
    else
      let rampFactor := min 1 ((daysSinceStart : ℚ) / (rampDays : ℚ))
      let adjustedEffect := effectSize * rampFactor
      let q := pyInt ((sale.quantity : ℚ) * (1 + adjustedEffect))
      some { sale with quantity := q,
                       revenue := round2 ((q : ℚ) * sale.unit_price) }
  else some sale

/-! ## The enrichment orchestrator (`enrich/enrichment.py`, `enrich`) -/

/-- A row of the input DataFrame (`product_identifier` is the mandatory
identifier column checked on line 141; `enriched` appears on already-enriched
inputs). -/
structure Row where
  product_identifier : String
  date : ℤ
  ordered_units : ℤ
  price : Option ℚ := none
  unit_price : Option ℚ := none
  revenue : ℚ
  enriched : Option Bool := none
deriving Repr, DecidableEq

/-- Lines 145-149: `df.to_dict(orient="records")`, then
`sale["product_id"] = sale["product_identifier"]` and
`if "price" in sale and "unit_price" not in sale:
sale["unit_price"] = sale["price"]`. -/
def toSaleRow (r : Row) : Sale :=
  { product_identifier := some r.product_identifier,
    product_id := r.product_identifier,
    date := r.date,
    ordered_units := r.ordered_units,
    unit_price := if r.unit_price.isNone ∧ r.price.isSome then r.price
                  else r.unit_price,
    price := r.price,
    revenue := r.revenue,
    enriched := r.enriched }

/-- Lines 159-163: `sale.pop("product_id", None)`, `sale.pop("unit_price",
None) if "price" in sale`, then `pd.DataFrame(treated_sales)` (the subsequent
column reordering on lines 166-168 permutes columns, not rows). -/
def fromSaleRow (s : Sale) : Row :=
  { product_identifier := s.product_identifier.getD "",
    date := s.date,
    ordered_units := s.ordered_units,
    price := s.price,
    unit_price := if s.price.isSome then none else s.unit_price,
    revenue := s.revenue,
    enriched := s.enriched }

/-- The three built-in effect functions registered by
`_register_default_functions` (enrichment_registry.py lines 19-30). -/
inductive BuiltinFn where
  | quantityBoost
  | probabilityBoost
  | combinedBoost
deriving Repr, DecidableEq

/-- Dispatch of a resolved built-in name to its callable. -/
def runBuiltin : BuiltinFn → RandState → List Sale → BoostArgs →
    Option (List Sale × RandState)
  | .quantityBoost => quantity_boost
  | .probabilityBoost => probability_boost
  | .combinedBoost => combined_boost

/-- Name resolution of `load_effect_function` /
`EnrichmentRegistry.get_enrichment_function` on a registry holding the lazily
registered built-ins; `none` models the `KeyError` for an unregistered
name. -/
def builtinFn (name : String) : Option BuiltinFn :=
  if name = "quantity_boost" then some .quantityBoost
  else if name = "probability_boost" then some .probabilityBoost
  else if name = "combined_boost" then some .combinedBoost
  else none

/-- `enrich(config_path, df, ...)` (enrichment.py lines 108-170), for a
treatment specification whose `FUNCTION` field names one of the built-in
effect functions: convert the rows, apply the resolved impact function, and
reassemble the rows. -/
def enrich (prior : RandState) (functionName : String) (rows : List Row)
    (a : BoostArgs) : Option (List Row × RandState) :=
  match builtinFn functionName with
  | none => none
  | some fn =>
    let sales := rows.map toSaleRow
    match runBuiltin fn prior sales a with
    | none => none
    | some (treatedSales, st) => some (treatedSales.map fromSaleRow, st)

/-! ## The enrichment registry (`enrich/enrichment_registry.py`)

A Python function object is abstracted by an identity plus the one property
`register_enrichment_function` inspects: whether its signature has a `sales`
parameter.  The module-level dict is an insertion-ordered key-unique
association list, as Python dicts are. -/

/-- A registrable function value. -/
structure PyFunc where
  fid : Nat
  hasSalesParam : Bool
deriving Repr, DecidableEq

/-- The built-in callables imported by `_register_default_functions`. -/
def quantityBoostFn : PyFunc := ⟨0, true⟩

def probabilityBoostFn : PyFunc := ⟨1, true⟩

def combinedBoostFn : PyFunc := ⟨2, true⟩

/-- `d[k] = v` on a Python dict: replace in place if the key is present,
append otherwise. -/
def dictSet {β : Type u} : List (String × β) → String → β → List (String × β)
  | [], k, v => [(k, v)]
  | (k', v') :: rest, k, v =>
    if k' = k then (k, v) :: rest else (k', v') :: dictSet rest k v

/-- `d.get(k)` / `k in d` on a Python dict. -/
def dictFind {β : Type u} : List (String × β) → String → Option β
  | [], _ => none
  | (k', v') :: rest, k => if k' = k then some v' else dictFind rest k

/-- The module state: `_ENRICHMENT_REGISTRY` and `_DEFAULTS_REGISTERED`. -/
structure RegistryState where
  reg : List (String × PyFunc)
  defaultsRegistered : Bool
deriving Repr, DecidableEq

/-- The state at module import time. -/
def initialRegistry : RegistryState := ⟨[], false⟩

/-- `_register_default_functions()` (lines 19-30): a no-op once
`_DEFAULTS_REGISTERED` is set, otherwise stores the three built-ins
(overwriting whatever sits under their names) and sets the flag. -/
def registerDefaultFunctions (s : RegistryState) : RegistryState :=
  if s.defaultsRegistered then s
  else
    { reg := dictSet (dictSet (dictSet s.reg "quantity_boost" quantityBoostFn)
        "probability_boost" probabilityBoostFn) "combined_boost" combinedBoostFn,
      defaultsRegistered := true }

/-- `EnrichmentRegistry.register_enrichment_function(name, func)` (lines
36-54): `none` models the `ValueError` for a function without a `sales`
parameter; otherwise the entry is stored, silently overwriting. -/
def register_enrichment_function (s : RegistryState) (name : String)
    (f : PyFunc) : Option RegistryState :=
  if f.hasSalesParam then some { s with reg := dictSet s.reg name f }
  else none

/-- `EnrichmentRegistry.get_enrichment_function(name)` (lines 87-104): run
the lazy default registration, then look the name up (`none` models the
`KeyError`). -/
def get_enrichment_function (s : RegistryState) (name : String) :
    Option PyFunc × RegistryState :=
  let s' := registerDefaultFunctions s
  (dictFind s'.reg name, s')

/-- `EnrichmentRegistry.clear_registry()` (lines 112-117). -/
def clear_registry : RegistryState := ⟨[], false⟩

/-- One registry operation, for quantifying over operation sequences.  A
`register` whose function lacks the `sales` parameter raises and leaves the
state unchanged. -/
inductive RegOp where
  | register (name : String) (f : PyFunc)
  | get (name : String)
  | listFunctions
  | clear
deriving Repr, DecidableEq

/-- State evolution of one registry operation. -/
def runOp (s : RegistryState) : RegOp → RegistryState
  | .register name f =>
    if f.hasSalesParam then { s with reg := dictSet s.reg name f } else s
  | .get _ => registerDefaultFunctions s
  | .listFunctions => registerDefaultFunctions s
  | .clear => clear_registry

/-- Run a sequence of registry operations. -/
def runOps (s : RegistryState) (ops : List RegOp) : RegistryState :=
  ops.foldl runOp s

/-! ## Potential outcomes -/

/-- A row of the `potential_outcomes` table (`enrich/enrich.py` lines 35-44
saves it when the effect function returns one). -/
structure PotentialOutcome where
  product_identifier : String
  date : ℤ
  Y0_revenue : ℚ
  Y1_revenue : ℚ
deriving Repr, DecidableEq

/-- Modelled from the spec: the potential-outcomes assembly of the "full"
effect variants is absent from the sources (only its caller
`enrich/enrich.py` handles the returned table).  Per the spec, a full
variant emits one row per observation keyed by `(product_identifier, date)`:
`Y0_revenue` is the baseline (untreated) revenue, and `Y1_revenue` is the
revenue under the ramp-adjusted boost, computed for every observation
regardless of treatment status; before the start date no boost applies, so
both coordinates are the observed revenue. -/
def potential_outcomes (start : ℤ) (effectSize : ℚ) (rampDays : ℤ)
    (sales : List Sale) : List PotentialOutcome :=
  sales.map fun s =>
    let y0 := s.revenue
    let y1 :=
      if start ≤ s.date then
        match getUnitPrice s with
        | some up =>
          round2 ((pyInt ((s.ordered_units : ℚ) *
            (1 + effectSize * ramp_factor (s.date - start) rampDays)) : ℚ) * up)
        | none => s.revenue
      else s.revenue
    ⟨s.product_id, s.date, y0, y1⟩

/-! ## Heap model

To settle the frame claim — the effect functions and `assign_enrichment`
mutate only the deep copies, never their input dictionaries — the same loops
are embedded once more at the level of an explicit object heap: a dictionary
object is an association list, the heap is a list of objects addressed by
index, `copy.deepcopy` allocates a fresh object, and every `sale_copy[...] =`
statement is a write at the copy's address. -/

/-- A Python value stored in a sale/product dictionary. -/
inductive HVal where
  | str (s : String)
  | int (z : ℤ)
  | rat (q : ℚ)
  | bool (b : Bool)
deriving Repr, DecidableEq

/-- A dictionary object. -/
abbrev Obj := List (String × HVal)

/-- The object heap; an address is an index, allocation appends. -/
abbrev Heap := List Obj

/-- Allocate a fresh object, returning its address. -/
def hAlloc (h : Heap) (o : Obj) : Heap × Nat :=
  (h ++ [o], h.length)

/-- Dereference an address. -/
def hGet (h : Heap) (a : Nat) : Obj :=
  h.getD a []

/-- `obj[key] = val` at address `a`. -/
def hWrite (h : Heap) (a : Nat) (k : String) (v : HVal) : Heap :=
  h.set a (dictSet (hGet h a) k v)

/-- Read a string field. -/
def objStr (o : Obj) (k : String) : Option String :=
  match dictFind o k with
  | some (.str s) => some s
  | _ => none

/-- Read an integer field. -/
def objInt (o : Obj) (k : String) : Option ℤ :=
  match dictFind o k with
  | some (.int z) => some z
  | _ => none

/-- Read a numeric field as a rational. -/
def objRat (o : Obj) (k : String) : Option ℚ :=
  match dictFind o k with
  | some (.rat q) => some q
  | some (.int z) => some (z : ℚ)
  | _ => none

/-- `sale_copy.get("unit_price", sale_copy.get("price"))` on an object. -/
def objPrice (o : Obj) : Option ℚ :=
  match objRat o "unit_price" with
  | some up => some up
  | none => objRat o "price"

/-- The writes the `quantity_boost` loop body performs on the deep copy at
address `c`: the `enriched` tag, then for boosted sales the new
`ordered_units` and `revenue`.  Field combinations on which the Python body
would raise (missing or ill-typed keys) stop after the writes already
performed — the frame property below covers every write prefix. -/
def boostWritesQ (enrichedIds : List String) (startDate : ℤ) (eff : ℚ)
    (h : Heap) (c : Nat) : Heap :=
  let o := hGet h c
  let isEnriched : Bool :=
    match objStr o "product_id" with
    | some pid => enrichedIds.contains pid
    | none => false
  let h1 := hWrite h c "enriched" (.bool isEnriched)
  if isEnriched then
    match objInt o "date", objInt o "ordered_units", objPrice o with
    | some d, some q, some up =>
      if startDate ≤ d then
        let q' := pyInt ((q : ℚ) * (1 + eff))
        let h2 := hWrite h1 c "ordered_units" (.int q')
        hWrite h2 c "revenue" (.rat (round2 ((q' : ℚ) * up)))
      else h1
    | _, _, _ => h1
  else h1

/-- The writes the `combined_boost` loop body performs on the copy at `c`. -/
def boostWritesC (enrichedIds : List String) (startDate : ℤ) (eff : ℚ)
    (rampDays : ℤ) (h : Heap) (c : Nat) : Heap :=
  let o := hGet h c
  let isEnriched : Bool :=
    match objStr o "product_id" with
    | some pid => enrichedIds.contains pid
    | none => false
  let h1 := hWrite h c "enriched" (.bool isEnriched)
  if isEnriched then
    match objInt o "date", objInt o "ordered_units", objPrice o with
    | some d, some q, some up =>
      if startDate ≤ d then
        let adjustedEffect := eff * ramp_factor (d - startDate) rampDays
        let q' := pyInt ((q : ℚ) * (1 + adjustedEffect))
        let h2 := hWrite h1 c "ordered_units" (.int q')
        hWrite h2 c "revenue" (.rat (round2 ((q' : ℚ) * up)))
      else h1
    | _, _, _ => h1
  else h1

/-- The `for sale in sales` loop of the effect functions at heap level:
each iteration deep-copies the sale (`hAlloc` of the dereferenced object),
applies the body's writes `f` to the copy, and appends the copy to the
output list. -/
def effectLoopH (f : Heap → Nat → Heap) : Heap → List Nat → Heap × List Nat
  | h, [] => (h, [])
  | h, a :: rest =>
    let (h1, c) := hAlloc h (hGet h a)
    let h2 := f h1 c
    let (h3, out) := effectLoopH f h2 rest
    (h3, c :: out)

/-- Heap-level `quantity_boost` application loop (lines 47-64). -/
def quantity_boostH (enrichedIds : List String) (startDate : ℤ) (eff : ℚ) :
    Heap → List Nat → Heap × List Nat :=
  effectLoopH (boostWritesQ enrichedIds startDate eff)

/-- Heap-level `combined_boost` application loop (lines 123-150). -/
def combined_boostH (enrichedIds : List String) (startDate : ℤ) (eff : ℚ)
    (rampDays : ℤ) : Heap → List Nat → Heap × List Nat :=
  effectLoopH (boostWritesC enrichedIds startDate eff rampDays)

/-- `copy.deepcopy(products)`: allocate a fresh copy of every object. -/
def deepcopyListH : Heap → List Nat → Heap × List Nat
  | h, [] => (h, [])
  | h, a :: rest =>
    let (h1, c) := hAlloc h (hGet h a)
    let (h2, cs) := deepcopyListH h1 rest
    (h2, c :: cs)

/-- `for i, product in enumerate(enriched_products):
product["enriched"] = i in enriched_indices`, carrying the running index. -/
def markEnrichedH (enrichedIndices : List Nat) :
    Heap → Nat → List Nat → Heap
  | h, _, [] => h
  | h, i, c :: rest =>
    markEnrichedH enrichedIndices
      (hWrite h c "enriched" (.bool (enrichedIndices.contains i))) (i + 1) rest

/-- Heap-level `assign_enrichment` (enrichment.py lines 54-68): deep-copy
the product list, then flag each copy. -/
def assign_enrichmentH (enrichedIndices : List Nat) (h : Heap)
    (products : List Nat) : Heap × List Nat :=
  let (h1, copies) := deepcopyListH h products
  (markEnrichedH enrichedIndices h1 0 copies, copies)

/-! ## Supporting lemmas -/

theorem applyAll_length {f : Sale → Option Sale} :
    ∀ {sales out : List Sale}, applyAll f sales = some out →
      out.length = sales.length := by
  intro sales
  induction sales with
  | nil => intro out h; simp [applyAll] at h; simp [← h]
  | cons s rest ih =>
    intro out h
    simp only [applyAll] at h
    cases hf : f s with
    | none => rw [hf] at h; simp at h
    | some t =>
      rw [hf] at h
      cases hrest : applyAll f rest with
      | none => rw [hrest] at h; simp at h
      | some ts =>
        rw [hrest] at h
        simp at h
        rw [← h]
        simp [ih hrest]

theorem applyAll_get {f : Sale → Option Sale} :
    ∀ {sales out : List Sale}, applyAll f sales = some out →
      ∀ i (h1 : i < sales.length) (h2 : i < out.length),
        f (sales.get ⟨i, h1⟩) = some (out.get ⟨i, h2⟩) := by
  intro sales
  induction sales with
  | nil => intro out h i h1; simp at h1
  | cons s rest ih =>
    intro out h i h1 h2
    simp only [applyAll] at h
    cases hf : f s with
    | none => rw [hf] at h; simp at h
    | some t =>
      rw [hf] at h
      cases hrest : applyAll f rest with
      | none => rw [hrest] at h; simp at h
      | some ts =>
        rw [hrest] at h
        simp at h
        subst h
        cases i with
        | zero => simpa using hf
        | succ j =>
          have h1' : j < rest.length := by simpa using h1
          have h2' : j < ts.length := by simpa using h2
          simpa using ih hrest j h1' h2'

theorem applyAll_mem {f : Sale → Option Sale} :
    ∀ {sales out : List Sale}, applyAll f sales = some out →
      ∀ t ∈ out, ∃ s ∈ sales, f s = some t := by
  intro sales
  induction sales with
  | nil => intro out h t ht; simp [applyAll] at h; subst h; simp at ht
  | cons s rest ih =>
    intro out h t ht
    simp only [applyAll] at h
    cases hf : f s with
    | none => rw [hf] at h; simp at h
    | some u =>
      rw [hf] at h
      cases hrest : applyAll f rest with
      | none => rw [hrest] at h; simp at h
      | some ts =>
        rw [hrest] at h
        simp at h
        subst h
        rcases List.mem_cons.mp ht with h | h
        · exact ⟨s, List.mem_cons_self s rest, by rw [hf, h]⟩
        · obtain ⟨s', hs', hfs'⟩ := ih hrest t h
          exact ⟨s', List.mem_cons_of_mem s hs', hfs'⟩

/-- For a fraction in `[0, 1]`, `int(N * fraction)` is `⌊N * fraction⌋` and
lies between `0` and `N`. -/
theorem pyInt_fraction_bounds {f : ℚ} (N : ℕ) (hf0 : 0 ≤ f) (hf1 : f ≤ 1) :
    pyInt ((N : ℚ) * f) = ⌊(N : ℚ) * f⌋ ∧ 0 ≤ ⌊(N : ℚ) * f⌋ ∧
      ⌊(N : ℚ) * f⌋ ≤ N := by
  have hnn : (0 : ℚ) ≤ (N : ℚ) * f := mul_nonneg (Nat.cast_nonneg N) hf0
  refine ⟨pyInt_nonneg_eq_floor hnn, Int.floor_nonneg.mpr hnn, ?_⟩
  have hle : (N : ℚ) * f ≤ (N : ℚ) := by
    calc (N : ℚ) * f ≤ (N : ℚ) * 1 :=
          mul_le_mul_of_nonneg_left hf1 (Nat.cast_nonneg N)
    _ = (N : ℚ) := mul_one _
  calc ⌊(N : ℚ) * f⌋ ≤ ⌊(N : ℚ)⌋ := Int.floor_le_floor hle
  _ = N := Int.floor_natCast N

/-- `random.sample` succeeds on `int(N * fraction)` draws from a
duplicate-free population of size `N` and returns that many distinct
population elements. -/
theorem sample_fraction_spec [DecidableEq α] [Inhabited α] (st : RandState)
    (pool : List α) {f : ℚ} (hf0 : 0 ≤ f) (hf1 : f ≤ 1)
    (hnd : pool.Nodup) :
    ∃ chosen st', sample st pool (pyInt ((pool.length : ℚ) * f)) =
        some (chosen, st') ∧
      chosen.Nodup ∧ chosen ⊆ pool ∧
      chosen.length = (⌊(pool.length : ℚ) * f⌋).toNat := by
  obtain ⟨hpy, h0, hN⟩ := pyInt_fraction_bounds pool.length hf0 hf1
  have hcond : 0 ≤ pyInt ((pool.length : ℚ) * f) ∧
      (pyInt ((pool.length : ℚ) * f)).toNat ≤ pool.length := by
    rw [hpy]
    exact ⟨h0, by omega⟩
  refine ⟨(sampleAux st pool (pyInt ((pool.length : ℚ) * f)).toNat).1,
    (sampleAux st pool (pyInt ((pool.length : ℚ) * f)).toNat).2, ?_, ?_, ?_, ?_⟩
  · simp [sample, hcond]
  · exact (sampleAux_subset_nodup st pool _ hnd (by rw [hpy]; omega)).2
  · exact (sampleAux_subset_nodup st pool _ hnd (by rw [hpy]; omega)).1
  · rw [sampleAux_length, hpy]

/-- Counting the flagged copies produced by `assign_enrichment`'s marking
loop: with distinct in-range indices, exactly one output product per index
carries `enriched = True`. -/
theorem countP_enum_mark (products : List Product) (idxs : List ℕ)
    (hnd : idxs.Nodup) (hsub : ∀ j ∈ idxs, j < products.length) :
    (products.enum.map
        (fun ip : ℕ × Product =>
          ({ ip.2 with enriched := some (decide (ip.1 ∈ idxs)) } :
            Product))).countP
      (fun p => decide (p.enriched = some true)) = idxs.length := by
  rw [List.countP_map]
  have hfun : ((fun p : Product => decide (p.enriched = some true)) ∘
      (fun ip : ℕ × Product =>
        { ip.2 with enriched := some (decide (ip.1 ∈ idxs)) })) =
      fun ip : ℕ × Product => decide (ip.1 ∈ idxs) := by
    funext ip
    simp
  rw [hfun]
  have hfst : (fun ip : ℕ × Product => decide (ip.1 ∈ idxs)) =
      ((fun i : ℕ => decide (i ∈ idxs)) ∘ Prod.fst) := rfl
  rw [hfst, ← List.countP_map, List.enum_map_fst]
  rw [List.countP_eq_length_filter]
  have hndfil : ((List.range products.length).filter
      (fun i => decide (i ∈ idxs))).Nodup :=
    (List.nodup_range products.length).filter _
  have hfs : ((List.range products.length).filter
      (fun i => decide (i ∈ idxs))).toFinset = idxs.toFinset := by
    ext j
    simp only [List.mem_toFinset, List.mem_filter, List.mem_range,
      decide_eq_true_eq]
    exact ⟨fun h => h.2, fun h => ⟨hsub j h, h⟩⟩
  calc ((List.range products.length).filter
      (fun i => decide (i ∈ idxs))).length
      = ((List.range products.length).filter
          (fun i => decide (i ∈ idxs))).toFinset.card :=
        (List.toFinset_card_of_nodup hndfil).symm
  _ = idxs.toFinset.card := by rw [hfs]
  _ = idxs.length := List.toFinset_card_of_nodup hnd

/-! ## Claim theorems -/

/-- C1.  Seeded-assignment determinism: with a non-`None` seed the treated
selection of `quantity_boost`/`combined_boost` and the assignment of
`assign_enrichment` are functions of `(unique_ids ordering, fraction, seed)`
alone — the state of the process-global generator before the call (which is
all that can differ between repeated invocations in one process or across
processes) does not influence the result, because `random.seed(seed)`
overwrites it. -/
theorem seeded_assignment_deterministic (x y : RandState)
    (sales : List Sale) (products : List Product) (fraction eff : ℚ)
    (start ramp z : ℤ) :
    selectEnriched x sales fraction (some z) =
      selectEnriched y sales fraction (some z) ∧
    quantity_boost x sales ⟨eff, fraction, start, some z, ramp⟩ =
      quantity_boost y sales ⟨eff, fraction, start, some z, ramp⟩ ∧
    combined_boost x sales ⟨eff, fraction, start, some z, ramp⟩ =
      combined_boost y sales ⟨eff, fraction, start, some z, ramp⟩ ∧
    assign_enrichment x products fraction (some z) =
      assign_enrichment y products fraction (some z) :=
  ⟨rfl, rfl, rfl, rfl⟩

/-- C2.  Fraction correctness: for a fraction in `[0, 1]` the seeded
selection inside the effect functions draws exactly
`⌊(#distinct product ids) * fraction⌋` distinct treated identifiers (with no
error), and `assign_enrichment` flags exactly `⌊len(products) * fraction⌋`
products as enriched; a zero fraction or an empty population yields the
empty selection. -/
theorem assignment_fraction_card (prior : RandState) (sales : List Sale)
    (products : List Product) (f : ℚ) (seed : Option ℤ)
    (hf0 : 0 ≤ f) (hf1 : f ≤ 1) :
    (∃ ids st, selectEnriched prior sales f seed = some (ids, st) ∧
       ids.toFinset.card =
         (⌊((sales.map (·.product_id)).dedup.length : ℚ) * f⌋).toNat ∧
       (f = 0 → ids = []) ∧ (sales = [] → ids = [])) ∧
    (∃ out st, assign_enrichment prior products f seed = some (out, st) ∧
       out.length = products.length ∧
       out.countP (fun p => decide (p.enriched = some true)) =
         (⌊(products.length : ℚ) * f⌋).toNat) := by
  constructor
  · obtain ⟨chosen, st', hs, hnd, hsub, hlen⟩ :=
      sample_fraction_spec
        (match seed with | some z => seedState z | none => prior)
        ((sales.map (·.product_id)).dedup) hf0 hf1 (List.nodup_dedup _)
    refine ⟨chosen, st', ?_, ?_, ?_, ?_⟩
    · simpa [selectEnriched] using hs
    · rw [List.toFinset_card_of_nodup hnd, hlen]
    · intro hf
      subst hf
      simp only [mul_zero, Int.floor_zero, Int.toNat_zero] at hlen
      exact List.length_eq_zero.mp hlen
    · intro hsales
      subst hsales
      simp only [List.map_nil, List.dedup_nil, List.length_nil,
        Nat.cast_zero, zero_mul, Int.floor_zero, Int.toNat_zero] at hlen
      exact List.length_eq_zero.mp hlen
  · obtain ⟨idxs, st', hs, hnd, hsub, hlen⟩ :=
      sample_fraction_spec
        (match seed with | some z => seedState z | none => prior)
        (List.range products.length) hf0 hf1 (List.nodup_range _)
    rw [List.length_range] at hs hlen
    refine ⟨products.enum.map
        (fun ip => { ip.2 with enriched := some (decide (ip.1 ∈ idxs)) }),
      st', ?_, ?_, ?_⟩
    · simp only [assign_enrichment]
      rw [hs]
    · simp [List.enum_length]
    · rw [countP_enum_mark products idxs hnd
        (fun j hj => List.mem_range.mp (hsub hj)), hlen]

/-- Inversion of a successful `quantity_boost` call. -/
theorem quantity_boost_some {prior : RandState} {sales : List Sale}
    {a : BoostArgs} {out : List Sale} {st' : RandState}
    (h : quantity_boost prior sales a = some (out, st')) :
    ∃ ids st,
      selectEnriched prior sales a.enrichment_fraction a.seed =
        some (ids, st) ∧
      applyAll (applyQuantityBoost ids a.enrichment_start a.effect_size)
        sales = some out ∧ st' = st := by
  simp only [quantity_boost] at h
  cases hsel : selectEnriched prior sales a.enrichment_fraction a.seed with
  | none => rw [hsel] at h; simp at h
  | some p =>
    obtain ⟨ids, st⟩ := p
    rw [hsel] at h
    simp only at h
    cases happ : applyAll
        (applyQuantityBoost ids a.enrichment_start a.effect_size) sales with
    | none => rw [happ] at h; simp at h
    | some o =>
      rw [happ] at h
      simp only [Option.some.injEq, Prod.mk.injEq] at h
      exact ⟨ids, st, rfl, by rw [happ, h.1], h.2.symm⟩

/-- Inversion of a successful `combined_boost` call. -/
theorem combined_boost_some {prior : RandState} {sales : List Sale}
    {a : BoostArgs} {out : List Sale} {st' : RandState}
    (h : combined_boost prior sales a = some (out, st')) :
    ∃ ids st,
      selectEnriched prior sales a.enrichment_fraction a.seed =
        some (ids, st) ∧
      applyAll (applyCombinedBoost ids a.enrichment_start a.effect_size
        a.ramp_days) sales = some out ∧ st' = st := by
  simp only [combined_boost] at h
  cases hsel : selectEnriched prior sales a.enrichment_fraction a.seed with
  | none => rw [hsel] at h; simp at h
  | some p =>
    obtain ⟨ids, st⟩ := p
    rw [hsel] at h
    simp only at h
    cases happ : applyAll (applyCombinedBoost ids a.enrichment_start
        a.effect_size a.ramp_days) sales with
    | none => rw [happ] at h; simp at h
    | some o =>
      rw [happ] at h
      simp only [Option.some.injEq, Prod.mk.injEq] at h
      exact ⟨ids, st, rfl, by rw [happ, h.1], h.2.symm⟩

/-- C3.  Row-for-row correspondence: a successful effect-function call
returns exactly one output record per input record, the i-th output row
being the per-record transform of the i-th input row, and the orchestrator
`enrich` returns exactly as many rows as its input table for every
resolvable treatment specification. -/
theorem row_for_row_correspondence :
    (∀ (prior : RandState) (sales : List Sale) (a : BoostArgs) out st',
       quantity_boost prior sales a = some (out, st') →
       out.length = sales.length ∧
       ∃ ids st, selectEnriched prior sales a.enrichment_fraction a.seed =
           some (ids, st) ∧
         ∀ i (h1 : i < sales.length) (h2 : i < out.length),
           applyQuantityBoost ids a.enrichment_start a.effect_size
             (sales.get ⟨i, h1⟩) = some (out.get ⟨i, h2⟩)) ∧
    (∀ (prior : RandState) (sales : List Sale) (a : BoostArgs) out st',
       combined_boost prior sales a = some (out, st') →
       out.length = sales.length ∧
       ∃ ids st, selectEnriched prior sales a.enrichment_fraction a.seed =
           some (ids, st) ∧
         ∀ i (h1 : i < sales.length) (h2 : i < out.length),
           applyCombinedBoost ids a.enrichment_start a.effect_size a.ramp_days
             (sales.get ⟨i, h1⟩) = some (out.get ⟨i, h2⟩)) ∧
    (∀ (prior : RandState) (functionName : String) (rows : List Row)
       (a : BoostArgs) out st',
       enrich prior functionName rows a = some (out, st') →
       out.length = rows.length) := by
  refine ⟨?_, ?_, ?_⟩
  · intro prior sales a out st' h
    obtain ⟨ids, st, hsel, happ, -⟩ := quantity_boost_some h
    exact ⟨applyAll_length happ, ids, st, hsel,
      fun i h1 h2 => applyAll_get happ i h1 h2⟩
  · intro prior sales a out st' h
    obtain ⟨ids, st, hsel, happ, -⟩ := combined_boost_some h
    exact ⟨applyAll_length happ, ids, st, hsel,
      fun i h1 h2 => applyAll_get happ i h1 h2⟩
  · intro prior functionName rows a out st' h
    simp only [enrich] at h
    cases hb : builtinFn functionName with
    | none => rw [hb] at h; simp at h
    | some fn =>
      rw [hb] at h
      simp only at h
      cases hr : runBuiltin fn prior (rows.map toSaleRow) a with
      | none => rw [hr] at h; simp at h
      | some p =>
        obtain ⟨treatedSales, st⟩ := p
        rw [hr] at h
        simp only [Option.some.injEq, Prod.mk.injEq] at h
        have hlen : treatedSales.length = rows.length := by
          cases fn with
          | quantityBoost =>
            obtain ⟨ids, st2, -, happ, -⟩ := quantity_boost_some hr
            rw [applyAll_length happ, List.length_map]
          | probabilityBoost =>
            simp only [runBuiltin, probability_boost] at hr
            obtain ⟨ids, st2, -, happ, -⟩ := quantity_boost_some hr
            rw [applyAll_length happ, List.length_map]
          | combinedBoost =>
            obtain ⟨ids, st2, -, happ, -⟩ := combined_boost_some hr
            rw [applyAll_length happ, List.length_map]
        rw [← h.1, List.length_map, hlen]

/-- Closed form of the `combined_boost` loop body. -/
theorem applyCombinedBoost_eq (ids : List String) (start : ℤ) (eff : ℚ)
    (ramp : ℤ) (s : Sale) :
    applyCombinedBoost ids start eff ramp s =
      if ids.contains s.product_id ∧ start ≤ s.date then
        match getUnitPrice s with
        | none => none
        | some up =>
          some { s with enriched := some (ids.contains s.product_id),
                        ordered_units := pyInt ((s.ordered_units : ℚ) *
                          (1 + eff * ramp_factor (s.date - start) ramp)),
                        revenue := round2 ((pyInt ((s.ordered_units : ℚ) *
                          (1 + eff * ramp_factor (s.date - start) ramp)) : ℚ)
                          * up) }
      else some { s with enriched := some (ids.contains s.product_id) } := by
  simp only [applyCombinedBoost, getUnitPrice]

/-- Closed form of the `quantity_boost` loop body. -/
theorem applyQuantityBoost_eq (ids : List String) (start : ℤ) (eff : ℚ)
    (s : Sale) :
    applyQuantityBoost ids start eff s =
      if ids.contains s.product_id ∧ start ≤ s.date then
        match getUnitPrice s with
        | none => none
        | some up =>
          some { s with enriched := some (ids.contains s.product_id),
                        ordered_units := pyInt ((s.ordered_units : ℚ) *
                          (1 + eff)),
                        revenue := round2 ((pyInt ((s.ordered_units : ℚ) *
                          (1 + eff)) : ℚ) * up) }
      else some { s with enriched := some (ids.contains s.product_id) } := by
  simp only [applyQuantityBoost, getUnitPrice]

theorem ramp_factor_pos_def {d r : ℤ} (hr : 0 < r) :
    ramp_factor d r = min 1 ((d : ℚ) / (r : ℚ)) := by
  unfold ramp_factor
  rw [if_neg (not_le.mpr hr)]

theorem ramp_factor_nonneg {d r : ℤ} (hd : 0 ≤ d) (hr : 0 < r) :
    0 ≤ ramp_factor d r := by
  rw [ramp_factor_pos_def hr]
  exact le_min zero_le_one
    (div_nonneg (by exact_mod_cast hd) (by exact_mod_cast hr.le))

theorem ramp_factor_mono {d1 d2 r : ℤ} (hr : 0 < r) (h : d1 ≤ d2) :
    ramp_factor d1 r ≤ ramp_factor d2 r := by
  rw [ramp_factor_pos_def hr, ramp_factor_pos_def hr]
  have hrq : (0 : ℚ) < (r : ℚ) := by exact_mod_cast hr
  exact min_le_min (le_refl 1)
    ((div_le_div_iff_of_pos_right hrq).mpr (by exact_mod_cast h))

theorem ramp_factor_saturates {d r : ℤ} (hr : 0 < r) (h : r ≤ d) :
    ramp_factor d r = 1 := by
  rw [ramp_factor_pos_def hr]
  have hrq : (0 : ℚ) < (r : ℚ) := by exact_mod_cast hr
  exact min_eq_left ((one_le_div hrq).mpr (by exact_mod_cast h))

theorem ramp_factor_day_zero {r : ℤ} (hr : 0 < r) : ramp_factor 0 r = 0 := by
  rw [ramp_factor_pos_def hr]
  simp

/-- The revenue-consistency invariant of the data model: whenever a row's
unit price is resolvable, the revenue field equals
`round(quantity * unit_price, 2)`. -/
def RevOk (s : Sale) : Prop :=
  ∀ up, getUnitPrice s = some up →
    s.revenue = round2 ((s.ordered_units : ℚ) * up)

/-- C4.  Day-zero-zero edge case: on an observation dated exactly on the
enrichment start date with ramping enabled, the ramp factor is `0.0`, the
boosted quantity equals the unboosted base quantity, and (for a
revenue-consistent input row) the revenue is unchanged. -/
theorem day_zero_zero_boost (ids : List String) (start : ℤ) (eff : ℚ)
    (ramp : ℤ) (s t : Sale) (hramp : 0 < ramp) (hdate : s.date = start)
    (happly : applyCombinedBoost ids start eff ramp s = some t) :
    ramp_factor (s.date - start) ramp = 0 ∧
    t.ordered_units = s.ordered_units ∧
    (RevOk s → t.revenue = s.revenue) := by
  have hd0 : s.date - start = 0 := by omega
  have hrf : ramp_factor (s.date - start) ramp = 0 := by
    rw [hd0]
    exact ramp_factor_day_zero hramp
  rw [applyCombinedBoost_eq, hrf] at happly
  refine ⟨hrf, ?_⟩
  by_cases hc : ids.contains s.product_id ∧ start ≤ s.date
  · rw [if_pos hc] at happly
    cases hup : getUnitPrice s with
    | none => rw [hup] at happly; simp at happly
    | some up =>
      rw [hup] at happly
      simp only [mul_zero, add_zero, mul_one, pyInt_intCast,
        Option.some.injEq] at happly
      subst happly
      refine ⟨rfl, fun hrev => ?_⟩
      simpa using (hrev up hup).symm
  · rw [if_neg hc] at happly
    simp only [Option.some.injEq] at happly
    subst happly
    exact ⟨rfl, fun _ => rfl⟩

/-- C5 counterexample: the older-generation
`enrichment_impact_library.combined_boost`, explicitly cited by the claim,
raises `ZeroDivisionError` for `ramp_days = 0` on a sale dated on the start
date instead of applying the full effect — the ramped-boost computation is
not total there for `ramp_days ≤ 0`. -/
theorem zero_ramp_days_zero_division :
    impactCombined_boost ⟨0, 2, 100, 200⟩ 0 (1/2) 0 = none := by
  simp [impactCombined_boost]

/-- C5, amended to the current-generation library
(`enrich/enrichment_library.py`, `combined_boost` and the identical
`_apply_sales_boost`): for `ramp_days ≤ 0` the ramp factor is `1.0` and the
treated sale receives the full `effect_size` boost from day one — total,
with no zero-division. -/
theorem zero_ramp_days_full_effect (ids : List String) (start : ℤ)
    (eff : ℚ) (ramp : ℤ) (s : Sale) (up : ℚ) (hramp : ramp ≤ 0)
    (htreated : ids.contains s.product_id = true) (hdate : start ≤ s.date)
    (hup : getUnitPrice s = some up) :
    ramp_factor (s.date - start) ramp = 1 ∧
    applyCombinedBoost ids start eff ramp s =
      some { s with enriched := some true,
                    ordered_units := pyInt ((s.ordered_units : ℚ) * (1 + eff)),
                    revenue := round2
                      ((pyInt ((s.ordered_units : ℚ) * (1 + eff)) : ℚ) * up) } := by
  have hrf : ramp_factor (s.date - start) ramp = 1 := by
    unfold ramp_factor
    rw [if_pos hramp]
  refine ⟨hrf, ?_⟩
  rw [applyCombinedBoost_eq, hrf, if_pos ⟨by rw [htreated], hdate⟩, hup,
    htreated]
  simp

/-- C6 counterexample: with base quantity `3`, `effect_size = 0.5` and a
sale past the end of the ramp window, the boosted quantity is the truncated
`int(3 * 1.5) = 4`, not "exactly `base * (1 + effect_size)`" `= 4.5` as the
claim states. -/
theorem ramp_saturation_truncation :
    (applyCombinedBoost ["P1"] 0 (1/2) 3
        { product_id := "P1", date := 3, ordered_units := 3,
          unit_price := some 100, revenue := 300 }).map
      (fun t => t.ordered_units) = some 4 ∧
    ((4 : ℚ) ≠ (3 : ℚ) * (1 + 1/2)) := by
  constructor
  · norm_num [applyCombinedBoost, ramp_factor, getUnitPrice, pyInt,
      List.contains]
  · norm_num

/-- C6, amended: for a treated product with constant nonnegative base
quantity, `effect_size ≥ 0` and `ramp_days > 0`, the boosted quantity is
non-decreasing in `days_since_start`, and once
`days_since_start ≥ ramp_days` it equals the truncated full boost
`int(base * (1 + effect_size))`. -/
theorem ramp_monotone_and_saturation (ids : List String) (start : ℤ)
    (eff : ℚ) (ramp d1 d2 : ℤ) (s t1 t2 : Sale)
    (heff : 0 ≤ eff) (hramp : 0 < ramp) (hq : 0 ≤ s.ordered_units)
    (htreated : ids.contains s.product_id = true)
    (hd1 : 0 ≤ d1) (hd12 : d1 ≤ d2)
    (h1 : applyCombinedBoost ids start eff ramp { s with date := start + d1 } =
      some t1)
    (h2 : applyCombinedBoost ids start eff ramp { s with date := start + d2 } =
      some t2) :
    t1.ordered_units ≤ t2.ordered_units ∧
    (ramp ≤ d2 → t2.ordered_units =
      pyInt ((s.ordered_units : ℚ) * (1 + eff))) := by
  have hdd1 : start + d1 - start = d1 := by omega
  have hdd2 : start + d2 - start = d2 := by omega
  rw [applyCombinedBoost_eq] at h1 h2
  simp only [hdd1] at h1
  simp only [hdd2] at h2
  rw [if_pos ⟨by rw [htreated], by omega⟩] at h1
  rw [if_pos ⟨by rw [htreated], by omega⟩] at h2
  cases hup : getUnitPrice s with
  | none =>
    rw [show getUnitPrice { s with date := start + d1 } = getUnitPrice s
        from rfl, hup] at h1
    simp at h1
  | some up =>
    rw [show getUnitPrice { s with date := start + d1 } = getUnitPrice s
        from rfl, hup] at h1
    rw [show getUnitPrice { s with date := start + d2 } = getUnitPrice s
        from rfl, hup] at h2
    simp only [Option.some.injEq] at h1 h2
    subst h1
    subst h2
    have hqq : (0 : ℚ) ≤ (s.ordered_units : ℚ) := by exact_mod_cast hq
    have hrf1 : 0 ≤ ramp_factor d1 ramp := ramp_factor_nonneg hd1 hramp
    dsimp only
    constructor
    · apply pyInt_mono_of_nonneg
      · exact mul_nonneg hqq (by linarith [mul_nonneg heff hrf1])
      · apply mul_le_mul_of_nonneg_left _ hqq
        apply add_le_add_left
        exact mul_le_mul_of_nonneg_left (ramp_factor_mono hramp hd12) heff
    · intro hsat
      rw [ramp_factor_saturates hramp hsat]
      norm_num

/-- Per-sale revenue consistency for the `quantity_boost` body. -/
theorem applyQuantityBoost_revOk {ids : List String} {start : ℤ} {eff : ℚ}
    {s t : Sale} (h : applyQuantityBoost ids start eff s = some t)
    (hs : RevOk s) : RevOk t := by
  rw [applyQuantityBoost_eq] at h
  by_cases hc : ids.contains s.product_id ∧ start ≤ s.date
  · rw [if_pos hc] at h
    cases hup : getUnitPrice s with
    | none => rw [hup] at h; simp at h
    | some up =>
      rw [hup] at h
      simp only [Option.some.injEq] at h
      subst h
      intro up' hup'
      have : getUnitPrice s = some up' := hup'
      rw [hup] at this
      simp only [Option.some.injEq] at this
      subst this
      rfl
  · rw [if_neg hc] at h
    simp only [Option.some.injEq] at h
    subst h
    intro up' hup'
    exact hs up' hup'

/-- Per-sale revenue consistency for the `combined_boost` body. -/
theorem applyCombinedBoost_revOk {ids : List String} {start : ℤ} {eff : ℚ}
    {ramp : ℤ} {s t : Sale}
    (h : applyCombinedBoost ids start eff ramp s = some t)
    (hs : RevOk s) : RevOk t := by
  rw [applyCombinedBoost_eq] at h
  by_cases hc : ids.contains s.product_id ∧ start ≤ s.date
  · rw [if_pos hc] at h
    cases hup : getUnitPrice s with
    | none => rw [hup] at h; simp at h
    | some up =>
      rw [hup] at h
      simp only [Option.some.injEq] at h
      subst h
      intro up' hup'
      have : getUnitPrice s = some up' := hup'
      rw [hup] at this
      simp only [Option.some.injEq] at this
      subst this
      rfl
  · rw [if_neg hc] at h
    simp only [Option.some.injEq] at h
    subst h
    intro up' hup'
    exact hs up' hup'

/-- C7.  Revenue consistency: if every input row satisfies
`revenue == round(quantity * unit_price, 2)` then so does every output row
of `quantity_boost` / `combined_boost` — boosted rows have their revenue
recomputed from the boosted quantity, pass-through rows inherit it — and a
zero output quantity implies zero revenue. -/
theorem revenue_consistency :
    (∀ (prior : RandState) (sales : List Sale) (a : BoostArgs) out st',
       quantity_boost prior sales a = some (out, st') →
       (∀ s ∈ sales, RevOk s) →
       ∀ t ∈ out, RevOk t ∧
         (t.ordered_units = 0 → ∀ up, getUnitPrice t = some up →
           t.revenue = 0)) ∧
    (∀ (prior : RandState) (sales : List Sale) (a : BoostArgs) out st',
       combined_boost prior sales a = some (out, st') →
       (∀ s ∈ sales, RevOk s) →
       ∀ t ∈ out, RevOk t ∧
         (t.ordered_units = 0 → ∀ up, getUnitPrice t = some up →
           t.revenue = 0)) := by
  have hzero : ∀ t : Sale, RevOk t → t.ordered_units = 0 →
      ∀ up, getUnitPrice t = some up → t.revenue = 0 := by
    intro t ht h0 up hup
    rw [ht up hup, h0]
    simpa using round2_zero
  constructor
  · intro prior sales a out st' h hsales t htmem
    obtain ⟨ids, st, -, happ, -⟩ := quantity_boost_some h
    obtain ⟨s, hsmem, hfs⟩ := applyAll_mem happ t htmem
    have hrev := applyQuantityBoost_revOk hfs (hsales s hsmem)
    exact ⟨hrev, hzero t hrev⟩
  · intro prior sales a out st' h hsales t htmem
    obtain ⟨ids, st, -, happ, -⟩ := combined_boost_some h
    obtain ⟨s, hsmem, hfs⟩ := applyAll_mem happ t htmem
    have hrev := applyCombinedBoost_revOk hfs (hsales s hsmem)
    exact ⟨hrev, hzero t hrev⟩

/-! ## Registry lemmas -/

theorem dictFind_dictSet_self {β : Type u} (d : List (String × β))
    (k : String) (v : β) : dictFind (dictSet d k v) k = some v := by
  induction d with
  | nil => simp [dictSet, dictFind]
  | cons p rest ih =>
    obtain ⟨k', v'⟩ := p
    by_cases h : k' = k
    · subst h
      simp [dictSet, dictFind]
    · simp [dictSet, dictFind, h, ih]

theorem dictFind_dictSet_ne {β : Type u} (d : List (String × β))
    {k k' : String} (h : k' ≠ k) (v : β) :
    dictFind (dictSet d k' v) k = dictFind d k := by
  induction d with
  | nil => simp [dictSet, dictFind, h]
  | cons p rest ih =>
    obtain ⟨k'', v''⟩ := p
    by_cases h2 : k'' = k'
    · subst h2
      simp [dictSet, dictFind, h]
    · simp [dictSet, dictFind, h2, ih]

/-- A later registry operation that neither re-registers `name` nor clears
the registry. -/
def PreservesEntry (name : String) : RegOp → Prop
  | .register n _ => n ≠ name
  | .get _ => True
  | .listFunctions => True
  | .clear => False

/-- The entry invariant: `name` is bound to `f`, and the lazy default
registration can no longer overwrite it (either it has already run, or
`name` is not a built-in name). -/
def EntryInv (name : String) (f : PyFunc) (s : RegistryState) : Prop :=
  dictFind s.reg name = some f ∧
    (s.defaultsRegistered = true ∨
      name ∉ ["quantity_boost", "probability_boost", "combined_boost"])

theorem registerDefaults_entryInv {name : String} {f : PyFunc}
    {s : RegistryState} (h : EntryInv name f s) :
    EntryInv name f (registerDefaultFunctions s) := by
  obtain ⟨hfind, hcase⟩ := h
  unfold registerDefaultFunctions
  by_cases hflag : s.defaultsRegistered
  · rw [if_pos hflag]
    exact ⟨hfind, Or.inl hflag⟩
  · rw [if_neg hflag]
    rcases hcase with hflag' | hname
    · exact absurd hflag' hflag
    · simp only [List.mem_cons, List.not_mem_nil, or_false,
        not_or] at hname
      obtain ⟨h1, h2, h3⟩ := hname
      refine ⟨?_, Or.inl rfl⟩
      rw [dictFind_dictSet_ne _ (fun hc => h3 hc.symm) _,
        dictFind_dictSet_ne _ (fun hc => h2 hc.symm) _,
        dictFind_dictSet_ne _ (fun hc => h1 hc.symm) _]
      exact hfind

theorem runOp_entryInv {name : String} {f : PyFunc} {s : RegistryState}
    {op : RegOp} (hinv : EntryInv name f s) (hop : PreservesEntry name op) :
    EntryInv name f (runOp s op) := by
  cases op with
  | register n g =>
    simp only [PreservesEntry] at hop
    simp only [runOp]
    by_cases hg : g.hasSalesParam
    · rw [if_pos hg]
      exact ⟨by rw [dictFind_dictSet_ne _ hop _]; exact hinv.1, hinv.2⟩
    · rw [if_neg hg]
      exact hinv
  | get n => exact registerDefaults_entryInv hinv
  | listFunctions => exact registerDefaults_entryInv hinv
  | clear => exact absurd hop (by simp [PreservesEntry])

theorem runOps_entryInv {name : String} {f : PyFunc} :
    ∀ (ops : List RegOp) (s : RegistryState), EntryInv name f s →
      (∀ op ∈ ops, PreservesEntry name op) →
      EntryInv name f (runOps s ops) := by
  intro ops
  induction ops with
  | nil => intro s h _; exact h
  | cons op rest ih =>
    intro s h hops
    exact ih (runOp s op)
      (runOp_entryInv h (hops op (List.mem_cons_self _ _)))
      (fun o ho => hops o (List.mem_cons_of_mem _ ho))

/-- C8 counterexample: on a fresh registry, a custom function registered
under the built-in name "quantity_boost" before the first `get` is
overwritten by the lazy default registration, and `get` returns the
built-in, not the custom function — the lazy registration is guarded by
`_DEFAULTS_REGISTERED`, not by "no custom registration has occurred yet". -/
theorem registry_lazy_default_overwrites :
    (register_enrichment_function initialRegistry "quantity_boost"
        ⟨7, true⟩).map
      (fun s => (get_enrichment_function s "quantity_boost").1) =
      some (some quantityBoostFn) ∧
    quantityBoostFn ≠ (⟨7, true⟩ : PyFunc) := by
  constructor
  · simp [register_enrichment_function, initialRegistry,
      get_enrichment_function, registerDefaultFunctions, dictSet, dictFind,
      quantityBoostFn, probabilityBoostFn, combinedBoostFn]
  · simp [quantityBoostFn]

/-- C8, amended: after `register(name, f)` with no later registration under
`name` and no later `clear`, `get(name)` returns `f`, provided the built-in
defaults were already registered at registration time or `name` is not one
of the three built-in names.  (As the counterexample shows, the lazy
default registration does overwrite a custom entry stored under a built-in
name before the first `get`/`list`.) -/
theorem registry_last_writer_wins (s s' : RegistryState) (name : String)
    (f : PyFunc) (ops : List RegOp)
    (hreg : register_enrichment_function s name f = some s')
    (hsafe : s.defaultsRegistered = true ∨
      name ∉ ["quantity_boost", "probability_boost", "combined_boost"])
    (hops : ∀ op ∈ ops, PreservesEntry name op) :
    (get_enrichment_function (runOps s' ops) name).1 = some f := by
  have hs' : s' = { s with reg := dictSet s.reg name f } := by
    unfold register_enrichment_function at hreg
    by_cases hg : f.hasSalesParam
    · rw [if_pos hg] at hreg
      simpa using hreg.symm
    · rw [if_neg hg] at hreg
      simp at hreg
  have hinv : EntryInv name f s' := by
    rw [hs']
    exact ⟨dictFind_dictSet_self _ _ _, hsafe⟩
  have hfinal := runOps_entryInv ops s' hinv hops
  exact (registerDefaults_entryInv hfinal).1

/-- C9.  Y0/Y1 pre-treatment equality, settled against the spec-modelled
potential-outcomes assembly: every row of the potential-outcomes table whose
date is strictly before the enrichment start date has
`Y0_revenue = Y1_revenue`. -/
theorem pretreatment_potential_outcomes_equal (start : ℤ) (eff : ℚ)
    (ramp : ℤ) (sales : List Sale) (r : PotentialOutcome)
    (hr : r ∈ potential_outcomes start eff ramp sales)
    (hdate : r.date < start) : r.Y0_revenue = r.Y1_revenue := by
  obtain ⟨s, hs, heq⟩ := List.mem_map.mp hr
  subst heq
  dsimp only at hdate ⊢
  rw [if_neg (not_le.mpr hdate)]

/-! ## Heap lemmas for the frame claim -/

theorem hGet_append {h : Heap} {i : Nat} (o : Obj) (hi : i < h.length) :
    hGet (h ++ [o]) i = hGet h i := by
  unfold hGet
  simp only [List.getD_eq_getElem?_getD]
  rw [List.getElem?_append, if_pos hi]

theorem length_hWrite (h : Heap) (a : Nat) (k : String) (v : HVal) :
    (hWrite h a k v).length = h.length := by
  unfold hWrite
  exact List.length_set h a _

theorem hGet_hWrite_ne {h : Heap} {a i : Nat} (k : String) (v : HVal)
    (hne : i ≠ a) : hGet (hWrite h a k v) i = hGet h i := by
  unfold hWrite hGet
  simp only [List.getD_eq_getElem?_getD]
  rw [List.getElem?_set_ne (Ne.symm hne)]

/-- A loop body that touches only the object at the address it is given and
never shrinks the heap. -/
def LocalizedWriter (f : Heap → Nat → Heap) : Prop :=
  ∀ h c, (∀ i, i ≠ c → hGet (f h c) i = hGet h i) ∧
    h.length ≤ (f h c).length

theorem boostWritesQ_localized (ids : List String) (start : ℤ) (eff : ℚ) :
    LocalizedWriter (boostWritesQ ids start eff) := by
  intro h c
  constructor
  · intro i hne
    unfold boostWritesQ
    dsimp only
    repeat' split
    all_goals simp [hGet_hWrite_ne _ _ hne]
  · unfold boostWritesQ
    dsimp only
    repeat' split
    all_goals simp [length_hWrite]

theorem boostWritesC_localized (ids : List String) (start : ℤ) (eff : ℚ)
    (ramp : ℤ) : LocalizedWriter (boostWritesC ids start eff ramp) := by
  intro h c
  constructor
  · intro i hne
    unfold boostWritesC
    dsimp only
    repeat' split
    all_goals simp [hGet_hWrite_ne _ _ hne]
  · unfold boostWritesC
    dsimp only
    repeat' split
    all_goals simp [length_hWrite]

theorem effectLoopH_frame {f : Heap → Nat → Heap} (hf : LocalizedWriter f) :
    ∀ (addrs : List Nat) (h : Heap) (i : Nat), i < h.length →
      hGet (effectLoopH f h addrs).1 i = hGet h i := by
  intro addrs
  induction addrs with
  | nil => intro h i hi; rfl
  | cons a rest ih =>
    intro h i hi
    simp only [effectLoopH, hAlloc]
    have h1len : i < (h ++ [hGet h a]).length := by
      simp only [List.length_append, List.length_singleton]
      omega
    have h2len : i < (f (h ++ [hGet h a]) h.length).length :=
      Nat.lt_of_lt_of_le h1len (hf (h ++ [hGet h a]) h.length).2
    rw [ih (f (h ++ [hGet h a]) h.length) i h2len,
      (hf (h ++ [hGet h a]) h.length).1 i (Nat.ne_of_lt hi),
      hGet_append _ hi]

theorem deepcopyListH_frame :
    ∀ (addrs : List Nat) (h : Heap) (i : Nat), i < h.length →
      hGet (deepcopyListH h addrs).1 i = hGet h i := by
  intro addrs
  induction addrs with
  | nil => intro h i hi; rfl
  | cons a rest ih =>
    intro h i hi
    simp only [deepcopyListH, hAlloc]
    have h1len : i < (h ++ [hGet h a]).length := by
      simp only [List.length_append, List.length_singleton]
      omega
    rw [ih (h ++ [hGet h a]) i h1len, hGet_append _ hi]

theorem deepcopyListH_fresh :
    ∀ (addrs : List Nat) (h : Heap) (c : Nat),
      c ∈ (deepcopyListH h addrs).2 → h.length ≤ c := by
  intro addrs
  induction addrs with
  | nil => intro h c hc; simp [deepcopyListH] at hc
  | cons a rest ih =>
    intro h c hc
    simp only [deepcopyListH, hAlloc] at hc
    rcases List.mem_cons.mp hc with hc | hc
    · omega
    · have := ih (h ++ [hGet h a]) c hc
      simp only [List.length_append, List.length_singleton] at this
      omega

theorem markEnrichedH_frame (idxs : List Nat) :
    ∀ (copies : List Nat) (h : Heap) (j i : Nat),
      (∀ c ∈ copies, i ≠ c) →
      hGet (markEnrichedH idxs h j copies) i = hGet h i := by
  intro copies
  induction copies with
  | nil => intro h j i _; rfl
  | cons c rest ih =>
    intro h j i hbound
    simp only [markEnrichedH]
    rw [ih _ _ _ (fun c' hc' => hbound c' (List.mem_cons_of_mem _ hc')),
      hGet_hWrite_ne _ _ (hbound c (List.mem_cons_self _ _))]

/-- C10.  Frame property: the effect-function loops and `assign_enrichment`
mutate only the freshly allocated deep copies — after the call every
pre-existing heap object, in particular every dictionary of the input
`sales` (respectively `products`) list, is unchanged. -/
theorem no_input_mutation (ids : List String) (start : ℤ) (eff : ℚ)
    (ramp : ℤ) (idxs : List Nat) (h : Heap) (addrs : List Nat) (i : Nat)
    (hi : i < h.length) :
    hGet (quantity_boostH ids start eff h addrs).1 i = hGet h i ∧
    hGet (combined_boostH ids start eff ramp h addrs).1 i = hGet h i ∧
    hGet (assign_enrichmentH idxs h addrs).1 i = hGet h i := by
  refine ⟨effectLoopH_frame (boostWritesQ_localized ids start eff) addrs h i hi,
    effectLoopH_frame (boostWritesC_localized ids start eff ramp) addrs h i hi,
    ?_⟩
  unfold assign_enrichmentH
  dsimp only
  rw [markEnrichedH_frame idxs _ _ 0 i
      (fun c hc => by have := deepcopyListH_fresh addrs h c hc; omega),
    deepcopyListH_frame addrs h i hi]

/-! ## Witnesses: the hypotheses of each claim theorem are satisfiable at
concrete inputs -/

theorem assignment_fraction_card_witness :
    (0 : ℚ) ≤ 1/2 ∧ (1/2 : ℚ) ≤ 1 ∧
    ((∃ ids st, selectEnriched ⟨0⟩ [] (1/2) (some 3) = some (ids, st) ∧
        ids.toFinset.card =
          (⌊((([] : List Sale).map (·.product_id)).dedup.length : ℚ) *
            (1/2)⌋).toNat ∧
        ((1/2 : ℚ) = 0 → ids = []) ∧ (([] : List Sale) = [] → ids = [])) ∧
     (∃ out st, assign_enrichment ⟨0⟩ [] (1/2) (some 3) = some (out, st) ∧
        out.length = ([] : List Product).length ∧
        out.countP (fun p => decide (p.enriched = some true)) =
          (⌊(([] : List Product).length : ℚ) * (1/2)⌋).toNat)) :=
  ⟨by norm_num, by norm_num,
    assignment_fraction_card ⟨0⟩ [] [] (1/2) (some 3) (by norm_num)
      (by norm_num)⟩

theorem row_for_row_correspondence_witness :
    enrich ⟨0⟩ "quantity_boost" [⟨"P1", 3, 2, some 100, none, 200, none⟩]
        ⟨1/2, 1, 0, some 0, 7⟩ =
      some ([⟨"P1", 3, 3, some 100, none, 300, some true⟩],
        ⟨1442695040888963407⟩) ∧
    ([⟨"P1", 3, 3, some 100, none, 300, some true⟩] : List Row).length =
      ([⟨"P1", 3, 2, some 100, none, 200, none⟩] : List Row).length := by
  have h : enrich ⟨0⟩ "quantity_boost"
      [⟨"P1", 3, 2, some 100, none, 200, none⟩] ⟨1/2, 1, 0, some 0, 7⟩ =
      some ([⟨"P1", 3, 3, some 100, none, 300, some true⟩],
        ⟨1442695040888963407⟩) := by
    norm_num [enrich, builtinFn, runBuiltin, toSaleRow, fromSaleRow,
      quantity_boost, selectEnriched, sample, sampleAux, applyAll,
      applyQuantityBoost, getUnitPrice, pyInt, round2, rintHalfEven,
      seedState, randbelow, nextNat, List.erase, List.dedup, List.contains]
  exact ⟨h, row_for_row_correspondence.2.2 ⟨0⟩ "quantity_boost"
    [⟨"P1", 3, 2, some 100, none, 200, none⟩] ⟨1/2, 1, 0, some 0, 7⟩
    [⟨"P1", 3, 3, some 100, none, 300, some true⟩]
    ⟨1442695040888963407⟩ h⟩

theorem day_zero_zero_boost_witness :
    (0 : ℤ) < 7 ∧
    applyCombinedBoost ["P1"] 0 (1/2) 7
        ⟨none, "P1", 0, 2, some 100, none, 200, none⟩ =
      some ⟨none, "P1", 0, 2, some 100, none, 200, some true⟩ ∧
    (ramp_factor ((⟨none, "P1", 0, 2, some 100, none, 200, none⟩ :
        Sale).date - 0) 7 = 0 ∧
     (⟨none, "P1", 0, 2, some 100, none, 200, some true⟩ :
        Sale).ordered_units =
       (⟨none, "P1", 0, 2, some 100, none, 200, none⟩ : Sale).ordered_units ∧
     (RevOk ⟨none, "P1", 0, 2, some 100, none, 200, none⟩ →
       (⟨none, "P1", 0, 2, some 100, none, 200, some true⟩ : Sale).revenue =
         (⟨none, "P1", 0, 2, some 100, none, 200, none⟩ : Sale).revenue)) := by
  have h : applyCombinedBoost ["P1"] 0 (1/2) 7
      ⟨none, "P1", 0, 2, some 100, none, 200, none⟩ =
      some ⟨none, "P1", 0, 2, some 100, none, 200, some true⟩ := by
    norm_num [applyCombinedBoost, ramp_factor, getUnitPrice, pyInt, round2,
      rintHalfEven, List.contains]
  exact ⟨by norm_num, h,
    day_zero_zero_boost ["P1"] 0 (1/2) 7
      ⟨none, "P1", 0, 2, some 100, none, 200, none⟩
      ⟨none, "P1", 0, 2, some 100, none, 200, some true⟩
      (by norm_num) rfl h⟩

theorem zero_ramp_days_full_effect_witness :
    (0 : ℤ) ≤ 0 ∧ (["P1"].contains "P1" = true) ∧ (0 : ℤ) ≤ 5 ∧
    getUnitPrice ⟨none, "P1", 5, 2, some 100, none, 200, none⟩ = some 100 ∧
    (ramp_factor ((⟨none, "P1", 5, 2, some 100, none, 200, none⟩ :
        Sale).date - 0) 0 = 1 ∧
     applyCombinedBoost ["P1"] 0 (1/2) 0
        ⟨none, "P1", 5, 2, some 100, none, 200, none⟩ =
      some { (⟨none, "P1", 5, 2, some 100, none, 200, none⟩ : Sale) with
        enriched := some true,
        ordered_units := pyInt
          (((⟨none, "P1", 5, 2, some 100, none, 200, none⟩ :
            Sale).ordered_units : ℚ) * (1 + 1/2)),
        revenue := round2 ((pyInt
          (((⟨none, "P1", 5, 2, some 100, none, 200, none⟩ :
            Sale).ordered_units : ℚ) * (1 + 1/2)) : ℚ) * 100) }) := by
  have hc : (["P1"].contains "P1" = true) := by simp
  exact ⟨le_refl 0, hc, by norm_num, rfl,
    zero_ramp_days_full_effect ["P1"] 0 (1/2) 0
      ⟨none, "P1", 5, 2, some 100, none, 200, none⟩ 100 (le_refl 0) hc
      (by norm_num) rfl⟩

theorem ramp_monotone_and_saturation_witness :
    (0 : ℚ) ≤ 1/2 ∧ (0 : ℤ) < 3 ∧
    (0 : ℤ) ≤ (⟨none, "P1", 99, 10, some 100, none, 1000, none⟩ :
      Sale).ordered_units ∧
    (["P1"].contains "P1" = true) ∧ (0 : ℤ) ≤ 1 ∧ (1 : ℤ) ≤ 3 ∧
    applyCombinedBoost ["P1"] 0 (1/2) 3
        { (⟨none, "P1", 99, 10, some 100, none, 1000, none⟩ : Sale) with
          date := 0 + 1 } =
      some ⟨none, "P1", 0 + 1, 11, some 100, none, 1100, some true⟩ ∧
    applyCombinedBoost ["P1"] 0 (1/2) 3
        { (⟨none, "P1", 99, 10, some 100, none, 1000, none⟩ : Sale) with
          date := 0 + 3 } =
      some ⟨none, "P1", 0 + 3, 15, some 100, none, 1500, some true⟩ ∧
    ((⟨none, "P1", 0 + 1, 11, some 100, none, 1100, some true⟩ :
        Sale).ordered_units ≤
      (⟨none, "P1", 0 + 3, 15, some 100, none, 1500, some true⟩ :
        Sale).ordered_units ∧
     ((3 : ℤ) ≤ 3 →
       (⟨none, "P1", 0 + 3, 15, some 100, none, 1500, some true⟩ :
          Sale).ordered_units =
        pyInt (((⟨none, "P1", 99, 10, some 100, none, 1000, none⟩ :
          Sale).ordered_units : ℚ) * (1 + 1/2)))) := by
  have hc : (["P1"].contains "P1" = true) := by simp
  have h1 : applyCombinedBoost ["P1"] 0 (1/2) 3
      { (⟨none, "P1", 99, 10, some 100, none, 1000, none⟩ : Sale) with
        date := 0 + 1 } =
      some ⟨none, "P1", 0 + 1, 11, some 100, none, 1100, some true⟩ := by
    norm_num [applyCombinedBoost, ramp_factor, getUnitPrice, pyInt, round2,
      rintHalfEven, List.contains]
  have h2 : applyCombinedBoost ["P1"] 0 (1/2) 3
      { (⟨none, "P1", 99, 10, some 100, none, 1000, none⟩ : Sale) with
        date := 0 + 3 } =
      some ⟨none, "P1", 0 + 3, 15, some 100, none, 1500, some true⟩ := by
    norm_num [applyCombinedBoost, ramp_factor, getUnitPrice, pyInt, round2,
      rintHalfEven, List.contains]
  exact ⟨by norm_num, by norm_num, by norm_num, hc, by norm_num, by norm_num,
    h1, h2,
    ramp_monotone_and_saturation ["P1"] 0 (1/2) 3 1 3
      ⟨none, "P1", 99, 10, some 100, none, 1000, none⟩
      ⟨none, "P1", 0 + 1, 11, some 100, none, 1100, some true⟩
      ⟨none, "P1", 0 + 3, 15, some 100, none, 1500, some true⟩
      (by norm_num) (by norm_num) (by norm_num) hc (by norm_num)
      (by norm_num) h1 h2⟩

theorem revenue_consistency_witness :
    quantity_boost ⟨0⟩ [⟨none, "P1", 3, 2, some 100, none, 200, none⟩]
        ⟨1/2, 1, 0, some 0, 7⟩ =
      some ([⟨none, "P1", 3, 3, some 100, none, 300, some true⟩],
        ⟨1442695040888963407⟩) ∧
    (RevOk ⟨none, "P1", 3, 3, some 100, none, 300, some true⟩ ∧
     ((⟨none, "P1", 3, 3, some 100, none, 300, some true⟩ :
        Sale).ordered_units = 0 →
       ∀ up, getUnitPrice ⟨none, "P1", 3, 3, some 100, none, 300, some true⟩ =
          some up →
         (⟨none, "P1", 3, 3, some 100, none, 300, some true⟩ :
           Sale).revenue = 0)) := by
  have h : quantity_boost ⟨0⟩ [⟨none, "P1", 3, 2, some 100, none, 200, none⟩]
      ⟨1/2, 1, 0, some 0, 7⟩ =
      some ([⟨none, "P1", 3, 3, some 100, none, 300, some true⟩],
        ⟨1442695040888963407⟩) := by
    norm_num [quantity_boost, selectEnriched, sample, sampleAux, applyAll,
      applyQuantityBoost, getUnitPrice, pyInt, round2, rintHalfEven,
      seedState, randbelow, nextNat, List.erase, List.dedup, List.contains]
  have hs : ∀ s ∈ [(⟨none, "P1", 3, 2, some 100, none, 200, none⟩ : Sale)],
      RevOk s := by
    intro s hsm
    rw [List.mem_singleton] at hsm
    subst hsm
    intro up hup
    simp only [getUnitPrice, Option.some.injEq] at hup
    subst hup
    norm_num [round2, rintHalfEven]
  exact ⟨h, revenue_consistency.1 ⟨0⟩
    [⟨none, "P1", 3, 2, some 100, none, 200, none⟩] ⟨1/2, 1, 0, some 0, 7⟩
    [⟨none, "P1", 3, 3, some 100, none, 300, some true⟩]
    ⟨1442695040888963407⟩ h hs
    ⟨none, "P1", 3, 3, some 100, none, 300, some true⟩ (by simp)⟩

theorem registry_last_writer_wins_witness :
    register_enrichment_function
        ⟨[("quantity_boost", ⟨0, true⟩), ("probability_boost", ⟨1, true⟩),
          ("combined_boost", ⟨2, true⟩)], true⟩
        "quantity_boost" ⟨7, true⟩ =
      some ⟨[("quantity_boost", ⟨7, true⟩), ("probability_boost", ⟨1, true⟩),
        ("combined_boost", ⟨2, true⟩)], true⟩ ∧
    (get_enrichment_function
        (runOps ⟨[("quantity_boost", ⟨7, true⟩),
          ("probability_boost", ⟨1, true⟩), ("combined_boost", ⟨2, true⟩)],
          true⟩ [RegOp.get "combined_boost"])
        "quantity_boost").1 = some ⟨7, true⟩ := by
  have hreg : register_enrichment_function
      ⟨[("quantity_boost", ⟨0, true⟩), ("probability_boost", ⟨1, true⟩),
        ("combined_boost", ⟨2, true⟩)], true⟩
      "quantity_boost" ⟨7, true⟩ =
      some ⟨[("quantity_boost", ⟨7, true⟩), ("probability_boost", ⟨1, true⟩),
        ("combined_boost", ⟨2, true⟩)], true⟩ := by
    simp [register_enrichment_function, dictSet]
  refine ⟨hreg, registry_last_writer_wins _ _ "quantity_boost" ⟨7, true⟩
    [RegOp.get "combined_boost"] hreg (Or.inl rfl) ?_⟩
  intro op hop
  rw [List.mem_singleton] at hop
  subst hop
  trivial

theorem pretreatment_potential_outcomes_equal_witness :
    (⟨"P1", -1, 200, 200⟩ : PotentialOutcome) ∈
      potential_outcomes 0 (1/2) 7
        [⟨none, "P1", -1, 2, some 100, none, 200, none⟩] ∧
    (-1 : ℤ) < 0 ∧
    (⟨"P1", -1, 200, 200⟩ : PotentialOutcome).Y0_revenue =
      (⟨"P1", -1, 200, 200⟩ : PotentialOutcome).Y1_revenue := by
  have hr : (⟨"P1", -1, 200, 200⟩ : PotentialOutcome) ∈
      potential_outcomes 0 (1/2) 7
        [⟨none, "P1", -1, 2, some 100, none, 200, none⟩] := by
    norm_num [potential_outcomes, getUnitPrice]
  exact ⟨hr, by norm_num,
    pretreatment_potential_outcomes_equal 0 (1/2) 7
      [⟨none, "P1", -1, 2, some 100, none, 200, none⟩]
      ⟨"P1", -1, 200, 200⟩ hr (by norm_num)⟩

theorem no_input_mutation_witness :
    (0 : Nat) < ([[("product_id", HVal.str "P1")]] : Heap).length ∧
    (hGet (quantity_boostH ["P1"] 0 (1/2)
        [[("product_id", HVal.str "P1")]] [0]).1 0 =
      hGet [[("product_id", HVal.str "P1")]] 0 ∧
     hGet (combined_boostH ["P1"] 0 (1/2) 7
        [[("product_id", HVal.str "P1")]] [0]).1 0 =
      hGet [[("product_id", HVal.str "P1")]] 0 ∧
     hGet (assign_enrichmentH [0] [[("product_id", HVal.str "P1")]] [0]).1 0 =
      hGet [[("product_id", HVal.str "P1")]] 0) :=
  ⟨by norm_num,
    no_input_mutation ["P1"] 0 (1/2) 7 [0]
      [[("product_id", HVal.str "P1")]] [0] 0 (by norm_num)⟩

end RetailSim
